import Mathlib

/-!
Verification of the sandbox session orchestration and persistent state layer
of the `gurt` repository, as a shallow embedding in Lean 4.

Each definition translates one source function:
* `src/sandbox/utils/port-manager.ts` — deterministic port allocation,
* `src/sandbox/providers/local-docker.ts` — local container backend,
* `src/sandbox/providers/bedrock.ts` — remote managed backend,
* `src/adapters/state-postgres.ts` — TTL cache, distributed lock, subscriptions,
* `src/core/session-manager.ts` — session registry and message history,
* `src/core/agent-controller.ts` — get-or-create-session flow,
* `src/sandbox/index.ts` (`ThreadSandboxManager`) — idle reaper.

Machine integers are modelled as `Nat`/`Int` with explicit 32-bit wrapping where
the JavaScript code truncates (`hash & hash`); wall-clock instants are `Nat`
milliseconds; SQL tables are lists of row structures with primary keys enforced
by the insert operations; fallible operations return `Except`/`Option`.
-/

namespace Gurt

/-! ### Port manager (`src/sandbox/utils/port-manager.ts`) -/

/-- Source constant `PORT_MIN = 10000`. -/
def PORT_MIN : Nat := 10000

/-- Source constant `PORT_MAX = 65535`. -/
def PORT_MAX : Nat := 65535

/-- Source constant `PORT_RANGE = PORT_MAX - PORT_MIN + 1 = 55536`. -/
def PORT_RANGE : Nat := PORT_MAX - PORT_MIN + 1

/-- JavaScript `ToInt32`: wrap an integer into the signed 32-bit range,
as performed by `hash & hash` and `<<` in `hashCode`. -/
def toInt32 (n : Int) : Int := (n + 2147483648) % 4294967296 - 2147483648

/-- One iteration of the loop in `hashCode`:
`hash = ((hash << 5) - hash) + char; hash = hash & hash`.
Given that `hash` is already a 32-bit integer, `hash << 5` is
`toInt32 (hash * 32)`, and the trailing `hash & hash` wraps the sum. -/
def hashStep (hash : Int) (c : Nat) : Int := toInt32 (toInt32 (hash * 32) - hash + c)

/-- Source `hashCode(str)`, folded over the UTF-16 code units of the string. -/
def hashCode (codes : List Nat) : Int := codes.foldl hashStep 0

/-- Code units of a string (the claims only use ASCII thread ids, for which
`Char.toNat` coincides with `charCodeAt`). -/
def strCodes (s : String) : List Nat := s.data.map Char.toNat

/-- Source `getPortForThread(threadId) = PORT_MIN + (Math.abs(hash) % PORT_RANGE)`. -/
def getPortForThread (threadId : String) : Nat :=
  PORT_MIN + (hashCode (strCodes threadId)).natAbs % PORT_RANGE

/-- Source `getNextPort(currentPort)`: increment, wrapping `PORT_MAX` to `PORT_MIN`. -/
def getNextPort (currentPort : Nat) : Nat :=
  if currentPort + 1 > PORT_MAX then PORT_MIN else currentPort + 1

/-! ### Local docker provider: port probing (`findAvailablePort`) -/

/-- Loop of `findAvailablePort` in `src/sandbox/providers/local-docker.ts`:
`while (attempts < maxAttempts) { if available return port; port = next; attempts++ }`,
modelled with the remaining attempt count as fuel.  `occupied` abstracts
`!isPortAvailable(docker, port)` (a port is occupied when some running
container publishes it). -/
def probePort (occupied : Nat → Bool) : Nat → Nat → Option Nat
  | 0, _ => none
  | fuel + 1, port =>
    if occupied port then probePort occupied fuel (getNextPort port) else some port

/-- Source `findAvailablePort(docker, threadId)` with `maxAttempts = 100`;
`none` models the final `throw`. -/
def findAvailablePort (occupied : Nat → Bool) (threadId : String) : Option Nat :=
  probePort occupied 100 (getPortForThread threadId)

/-- Candidate port sequence probed for a base port: iterates of `getNextPort`. -/
def portSeq (base : Nat) (k : Nat) : Nat := getNextPort^[k] base

theorem portSeq_zero (base : Nat) : portSeq base 0 = base := rfl

theorem portSeq_succ (base k : Nat) :
    portSeq base (k + 1) = portSeq (getNextPort base) k := by
  simp [portSeq, Function.iterate_succ_apply]

/-- Characterization of the probe loop: it returns exactly the first
unoccupied port of the candidate sequence, within the fuel bound. -/
theorem probePort_eq_some_iff (occupied : Nat → Bool) :
    ∀ (fuel : Nat) (p q : Nat),
      probePort occupied fuel p = some q ↔
        ∃ k, k < fuel ∧ q = portSeq p k ∧ occupied q = false ∧
          ∀ j, j < k → occupied (portSeq p j) = true := by
  intro fuel
  induction fuel with
  | zero => intro p q; simp [probePort]
  | succ n ih =>
    intro p q
    by_cases h : occupied p = true
    · rw [probePort, if_pos h, ih (getNextPort p) q]
      constructor
      · rintro ⟨k, hk, rfl, hocc, hall⟩
        refine ⟨k + 1, by omega, (portSeq_succ p k).symm, hocc, ?_⟩
        intro j hj
        cases j with
        | zero => simpa [portSeq_zero] using h
        | succ j => rw [portSeq_succ]; exact hall j (by omega)
      · rintro ⟨k, hk, rfl, hocc, hall⟩
        cases k with
        | zero => simp [portSeq_zero] at hocc; rw [hocc] at h; exact absurd h (by simp)
        | succ k =>
          refine ⟨k, by omega, (portSeq_succ p k), hocc, ?_⟩
          intro j hj
          rw [← portSeq_succ]
          exact hall (j + 1) (by omega)
    · rw [probePort, if_neg h]
      constructor
      · rintro ⟨rfl⟩
        exact ⟨0, by omega, (portSeq_zero p).symm, by simpa using h, by omega⟩
      · rintro ⟨k, hk, rfl, hocc, hall⟩
        cases k with
        | zero => simp [portSeq_zero]
        | succ k =>
          have := hall 0 (by omega)
          rw [portSeq_zero] at this
          exact absurd this (by simpa using h)

/-- Failure characterization of the probe loop: it fails exactly when every
candidate within the fuel bound is occupied. -/
theorem probePort_eq_none_iff (occupied : Nat → Bool) :
    ∀ (fuel : Nat) (p : Nat),
      probePort occupied fuel p = none ↔ ∀ k, k < fuel → occupied (portSeq p k) = true := by
  intro fuel
  induction fuel with
  | zero => intro p; simp [probePort]
  | succ n ih =>
    intro p
    by_cases h : occupied p = true
    · rw [probePort, if_pos h, ih (getNextPort p)]
      constructor
      · intro hall k hk
        cases k with
        | zero => simpa [portSeq_zero] using h
        | succ k => rw [portSeq_succ]; exact hall k (by omega)
      · intro hall k hk
        rw [← portSeq_succ]
        exact hall (k + 1) (by omega)
    · rw [probePort, if_neg h]
      constructor
      · intro hcontra; exact absurd hcontra (by simp)
      · intro hall
        have := hall 0 (by omega)
        rw [portSeq_zero] at this
        exact absurd this (by simpa using h)

theorem getPortForThread_bounds (t : String) :
    PORT_MIN ≤ getPortForThread t ∧ getPortForThread t ≤ PORT_MAX := by
  have h : (hashCode (strCodes t)).natAbs % PORT_RANGE < PORT_RANGE :=
    Nat.mod_lt _ (by norm_num [PORT_RANGE, PORT_MIN, PORT_MAX])
  unfold getPortForThread PORT_RANGE PORT_MIN PORT_MAX at *
  omega

/-- Claim C9: local-backend first-creation port selection returns the first
unoccupied port of the sequence obtained by iterating `getNextPort` from the
deterministic base port `getPortForThread threadId`, which lies in
`[10000, 65535]` and wraps `65535` to `10000`; if only the base port is
occupied it selects `base + 1`; it fails exactly when all `100` probed
candidates are occupied. -/
theorem claim_C9 :
    (∀ t : String, PORT_MIN ≤ getPortForThread t ∧ getPortForThread t ≤ PORT_MAX) ∧
    getNextPort 65535 = 10000 ∧
    (∀ p : Nat, p < 65535 → getNextPort p = p + 1) ∧
    (∀ (occupied : Nat → Bool) (t : String) (q : Nat),
        findAvailablePort occupied t = some q ↔
          ∃ k, k < 100 ∧ q = portSeq (getPortForThread t) k ∧ occupied q = false ∧
            ∀ j, j < k → occupied (portSeq (getPortForThread t) j) = true) ∧
    (∀ (occupied : Nat → Bool) (t : String),
        findAvailablePort occupied t = none ↔
          ∀ k, k < 100 → occupied (portSeq (getPortForThread t) k) = true) ∧
    (∀ t : String, getPortForThread t < PORT_MAX →
        findAvailablePort (fun p => p == getPortForThread t) t
          = some (getPortForThread t + 1)) := by
  refine ⟨getPortForThread_bounds, by norm_num [getNextPort, PORT_MAX, PORT_MIN],
    fun p hp => by simp [getNextPort, PORT_MAX]; omega, ?_, ?_, ?_⟩
  · intro occupied t q
    exact probePort_eq_some_iff occupied 100 (getPortForThread t) q
  · intro occupied t
    exact probePort_eq_none_iff occupied 100 (getPortForThread t)
  · intro t ht
    apply (probePort_eq_some_iff _ 100 (getPortForThread t) _).mpr
    have hnext : getNextPort (getPortForThread t) = getPortForThread t + 1 := by
      simp [getNextPort, PORT_MAX] at *; omega
    refine ⟨1, by omega, ?_, ?_, ?_⟩
    · rw [portSeq_succ, portSeq_zero, hnext]
    · simp
    · intro j hj
      have hj0 : j = 0 := by omega
      subst hj0
      rw [portSeq_zero]
      simp

theorem claim_C9_witness :
    getPortForThread "abc" < PORT_MAX ∧
    findAvailablePort (fun p => p == getPortForThread "abc") "abc"
      = some (getPortForThread "abc" + 1) :=
  ⟨by decide, claim_C9.2.2.2.2.2 "abc" (by decide)⟩

/-! ### State adapter: distributed lock (`src/adapters/state-postgres.ts`) -/

/-- Source `Lock` interface: the handle returned by `acquireLock`. -/
structure Lock where
  threadId : String
  token : String
  expiresAt : Nat
  deriving DecidableEq, Repr

/-- Row of the `state_locks` table (`thread_id` is the primary key). -/
structure LockRow where
  threadId : String
  token : String
  expiresAt : Nat
  createdAt : Nat
  deriving DecidableEq, Repr

/-- Contents of the `state_locks` table. -/
abbrev LockTable := List LockRow

/-- First step of `acquireLock`:
`DELETE FROM state_locks WHERE thread_id = threadId AND expires_at < now`. -/
def purgeExpiredLocks (tbl : LockTable) (threadId : String) (now : Nat) : LockTable :=
  tbl.filter fun r => !(r.threadId == threadId && decide (r.expiresAt < now))

/-- Source `acquireLock(threadId, ttlMs)`: purge expired locks for the thread,
then attempt the insert; a primary-key conflict (a row for `threadId` still
present) is caught and reported as `none`.  The generated token and the current
time are passed explicitly. -/
def acquireLock (tbl : LockTable) (threadId : String) (ttlMs : Nat) (token : String)
    (now : Nat) : LockTable × Option Lock :=
  if (purgeExpiredLocks tbl threadId now).any fun r => r.threadId == threadId then
    (purgeExpiredLocks tbl threadId now, none)
  else
    (purgeExpiredLocks tbl threadId now ++ [⟨threadId, token, now + ttlMs, now⟩],
     some ⟨threadId, token, now + ttlMs⟩)

/-- Source `releaseLock(lock)`:
`DELETE FROM state_locks WHERE thread_id = lock.threadId AND token = lock.token`. -/
def releaseLock (tbl : LockTable) (lock : Lock) : LockTable :=
  tbl.filter fun r => !(r.threadId == lock.threadId && r.token == lock.token)

/-- Row predicate of the `UPDATE` in `extendLock`: matching thread id, matching
token, and stored expiry still in the future (`expires_at > now`). -/
def extendLockHit (lock : Lock) (now : Nat) (r : LockRow) : Bool :=
  r.threadId == lock.threadId && r.token == lock.token && decide (now < r.expiresAt)

/-- Source `extendLock(lock, ttlMs)`: update the expiry of every matching live
row and report whether any row was updated (`numUpdatedRows > 0`). -/
def extendLock (tbl : LockTable) (lock : Lock) (ttlMs : Nat) (now : Nat) :
    LockTable × Bool :=
  ((tbl.map fun r =>
      if extendLockHit lock now r then { r with expiresAt := now + ttlMs } else r),
   tbl.any (extendLockHit lock now))

/-- Primary-key invariant of `state_locks`: thread ids are pairwise distinct. -/
def LockTableWF (tbl : LockTable) : Prop :=
  tbl.Pairwise fun a b => a.threadId ≠ b.threadId

theorem lockTableWF_filter {tbl : LockTable} (p : LockRow → Bool)
    (h : LockTableWF tbl) : LockTableWF (tbl.filter p) :=
  List.Pairwise.sublist (List.filter_sublist tbl) h

/-- With pairwise-distinct thread ids, at most one row satisfies any predicate
implying a fixed thread id. -/
theorem length_filter_le_one_of_wf {tbl : LockTable} (p : LockRow → Bool) (t : String)
    (hp : ∀ r, p r = true → r.threadId = t) (h : LockTableWF tbl) :
    (tbl.filter p).length ≤ 1 := by
  induction tbl with
  | nil => simp
  | cons a l ih =>
    simp only [LockTableWF, List.pairwise_cons] at h
    by_cases ha : p a = true
    · have hat := hp a ha
      have hnone : l.filter p = [] := by
        apply List.filter_eq_nil_iff.mpr
        intro b hb hpb
        exact h.1 b hb (by rw [hat, hp b hpb])
      simp [List.filter_cons, ha, hnone]
    · simp only [List.filter_cons, ha]
      simpa using ih h.2

theorem mem_purgeExpiredLocks {tbl : LockTable} {r : LockRow} {t : String} {now : Nat} :
    r ∈ purgeExpiredLocks tbl t now ↔ r ∈ tbl ∧ ¬(r.threadId = t ∧ r.expiresAt < now) := by
  simp [purgeExpiredLocks, List.mem_filter]
  tauto

/-- Purge for a thread leaves a row with its thread id exactly when the table
holds a live (non-expired) lock row for the thread. -/
theorem any_purgeExpiredLocks_iff (tbl : LockTable) (t : String) (now : Nat) :
    ((purgeExpiredLocks tbl t now).any fun r => r.threadId == t) = true ↔
      ∃ r ∈ tbl, r.threadId = t ∧ now ≤ r.expiresAt := by
  simp only [List.any_eq_true, beq_iff_eq]
  constructor
  · rintro ⟨r, hr, ht⟩
    rw [mem_purgeExpiredLocks] at hr
    refine ⟨r, hr.1, ht, ?_⟩
    by_contra hlt
    exact hr.2 ⟨ht, by omega⟩
  · rintro ⟨r, hr, ht, hlive⟩
    exact ⟨r, mem_purgeExpiredLocks.mpr ⟨hr, fun hc => by omega⟩, ht⟩

/-- Acquisition succeeds exactly when no live (non-expired) row for the thread
remains in the table. -/
theorem acquireLock_some_iff (tbl : LockTable) (t : String) (ttlMs : Nat)
    (token : String) (now : Nat) :
    (acquireLock tbl t ttlMs token now).2 = some ⟨t, token, now + ttlMs⟩ ↔
      ∀ r ∈ tbl, r.threadId = t → r.expiresAt < now := by
  by_cases hc : ((purgeExpiredLocks tbl t now).any fun r => r.threadId == t) = true
  · rw [acquireLock, if_pos hc]
    obtain ⟨r, hr, hrt, hlive⟩ := (any_purgeExpiredLocks_iff tbl t now).mp hc
    simp only [reduceCtorEq, false_iff, not_forall]
    exact ⟨r, hr, hrt, by omega⟩
  · rw [acquireLock, if_neg hc]
    simp only [Option.some.injEq, true_iff, Lock.mk.injEq, and_self, true_and]
    intro r hr hrt
    by_contra hlive
    exact hc ((any_purgeExpiredLocks_iff tbl t now).mpr ⟨r, hr, hrt, by omega⟩)

theorem acquireLock_none_iff (tbl : LockTable) (t : String) (ttlMs : Nat)
    (token : String) (now : Nat) :
    (acquireLock tbl t ttlMs token now).2 = none ↔
      ∃ r ∈ tbl, r.threadId = t ∧ now ≤ r.expiresAt := by
  by_cases hc : ((purgeExpiredLocks tbl t now).any fun r => r.threadId == t) = true
  · rw [acquireLock, if_pos hc]
    exact iff_of_true rfl ((any_purgeExpiredLocks_iff tbl t now).mp hc)
  · rw [acquireLock, if_neg hc]
    simp only [reduceCtorEq, false_iff]
    exact fun hex => hc ((any_purgeExpiredLocks_iff tbl t now).mpr hex)

theorem acquireLock_wf (tbl : LockTable) (t : String) (ttlMs : Nat) (token : String)
    (now : Nat) (h : LockTableWF tbl) :
    LockTableWF (acquireLock tbl t ttlMs token now).1 := by
  by_cases hc : ((purgeExpiredLocks tbl t now).any fun r => r.threadId == t) = true
  · rw [acquireLock, if_pos hc]
    exact lockTableWF_filter _ h
  · rw [acquireLock, if_neg hc]
    simp only [LockTableWF, List.pairwise_append]
    refine ⟨lockTableWF_filter _ h, by simp, ?_⟩
    intro a ha b hb
    rw [Bool.not_eq_true, List.any_eq_false] at hc
    simp only [List.mem_singleton] at hb
    subst hb
    intro hab
    have hat : a.threadId = t := by simpa using hab
    have := hc a ha
    simp [hat] at this

/-- Rows for the acquired thread after a successful acquisition are exactly the
newly inserted row. -/
theorem acquireLock_rows_of_thread {tbl tbl' : LockTable} {t : String} {ttlMs : Nat}
    {token : String} {now : Nat} {l : Lock}
    (hacq : acquireLock tbl t ttlMs token now = (tbl', some l)) :
    ∀ r ∈ tbl', r.threadId = t → r = ⟨t, token, now + ttlMs, now⟩ := by
  by_cases hc : ((purgeExpiredLocks tbl t now).any fun r => r.threadId == t) = true
  · rw [acquireLock, if_pos hc] at hacq
    simp at hacq
  · rw [acquireLock, if_neg hc] at hacq
    cases hacq
    intro r hr hrt
    rcases List.mem_append.mp hr with hmem | hmem
    · rw [Bool.not_eq_true, List.any_eq_false] at hc
      have := hc r hmem
      simp [hrt] at this
    · simpa using hmem

theorem acquireLock_mem_insert {tbl tbl' : LockTable} {t : String} {ttlMs : Nat}
    {token : String} {now : Nat} {l : Lock}
    (hacq : acquireLock tbl t ttlMs token now = (tbl', some l)) :
    (⟨t, token, now + ttlMs, now⟩ : LockRow) ∈ tbl' := by
  by_cases hc : ((purgeExpiredLocks tbl t now).any fun r => r.threadId == t) = true
  · rw [acquireLock, if_pos hc] at hacq
    simp at hacq
  · rw [acquireLock, if_neg hc] at hacq
    cases hacq
    simp

/-- Claim C2: lock mutual exclusion.  Acquisition preserves the primary-key
invariant; under it at most one non-expired lock row per thread exists at any
instant; `acquireLock` returns a lock exactly when no non-expired row for the
thread exists; a second acquisition while the first lock is live returns none;
and any acquisition strictly after the first lock's expiry succeeds. -/
theorem claim_C2 :
    (∀ (tbl : LockTable) (t : String) (ttlMs : Nat) (token : String) (now : Nat),
        LockTableWF tbl → LockTableWF (acquireLock tbl t ttlMs token now).1) ∧
    (∀ (tbl : LockTable) (t : String) (now : Nat), LockTableWF tbl →
        (tbl.filter fun r => r.threadId == t && !decide (r.expiresAt < now)).length ≤ 1) ∧
    (∀ (tbl : LockTable) (t : String) (ttlMs : Nat) (token : String) (now : Nat),
        (acquireLock tbl t ttlMs token now).2 = some ⟨t, token, now + ttlMs⟩ ↔
          ∀ r ∈ tbl, r.threadId = t → r.expiresAt < now) ∧
    (∀ (tbl tbl' : LockTable) (t : String) (ttlMs : Nat) (token : String) (now : Nat)
        (l : Lock) (ttlMs' : Nat) (token' : String) (now' : Nat),
        acquireLock tbl t ttlMs token now = (tbl', some l) → now' ≤ now + ttlMs →
          (acquireLock tbl' t ttlMs' token' now').2 = none) ∧
    (∀ (tbl tbl' : LockTable) (t : String) (ttlMs : Nat) (token : String) (now : Nat)
        (l : Lock) (ttlMs' : Nat) (token' : String) (now' : Nat),
        acquireLock tbl t ttlMs token now = (tbl', some l) → now + ttlMs < now' →
          (acquireLock tbl' t ttlMs' token' now').2 = some ⟨t, token', now' + ttlMs'⟩) := by
  refine ⟨acquireLock_wf, ?_, acquireLock_some_iff, ?_, ?_⟩
  · intro tbl t now h
    refine length_filter_le_one_of_wf _ t ?_ h
    intro r hr
    simp only [Bool.and_eq_true, beq_iff_eq] at hr
    exact hr.1
  · intro tbl tbl' t ttlMs token now l ttlMs' token' now' hacq hle
    apply (acquireLock_none_iff tbl' t ttlMs' token' now').mpr
    exact ⟨⟨t, token, now + ttlMs, now⟩, acquireLock_mem_insert hacq, rfl, hle⟩
  · intro tbl tbl' t ttlMs token now l ttlMs' token' now' hacq hlt
    apply (acquireLock_some_iff tbl' t ttlMs' token' now').mpr
    intro r hr hrt
    have := acquireLock_rows_of_thread hacq r hr hrt
    subst this
    simpa using hlt

theorem claim_C2_witness :
    (acquireLock [⟨"t1", "a", 100, 0⟩] "t1" 100 "b" 50).2 = none ∧
    (acquireLock [⟨"t1", "a", 100, 0⟩] "t1" 100 "b" 101).2 = some ⟨"t1", "b", 201⟩ :=
  ⟨claim_C2.2.2.2.1 [] [⟨"t1", "a", 100, 0⟩] "t1" 100 "a" 0 ⟨"t1", "a", 100⟩ 100 "b" 50
      (by decide) (by decide),
   claim_C2.2.2.2.2 [] [⟨"t1", "a", 100, 0⟩] "t1" 100 "a" 0 ⟨"t1", "a", 100⟩ 100 "b" 101
      (by decide) (by decide)⟩

/-- Update map of `extendLock` is the identity when no row satisfies the hit
predicate, and `numUpdatedRows` is then zero. -/
theorem extendLock_noop {tbl : LockTable} {lock : Lock} {ttlMs now : Nat}
    (h : ∀ r ∈ tbl, extendLockHit lock now r = false) :
    extendLock tbl lock ttlMs now = (tbl, false) := by
  unfold extendLock
  rw [Prod.mk.injEq]
  refine ⟨?_, ?_⟩
  · induction tbl with
    | nil => rfl
    | cons a l ih =>
      have ha := h a (by simp)
      simp only [List.map_cons]
      rw [if_neg (by simp [ha]), ih (fun r hr => h r (by simp [hr]))]
  · rw [List.any_eq_false]
    intro r hr
    simp [h r hr]

/-- Claim C7: stale lock operations are safe no-ops.  `extendLock` with a
mismatched token, or against a stored lock whose expiry is not in the future,
returns false and leaves the table (in particular every stored expiry)
unchanged; `releaseLock` removes only rows matching both thread id and token,
affects zero rows on token mismatch, and never removes a row carrying a
different token (a lock re-acquired by another holder).  Both operations are
total functions of the table: they never throw. -/
theorem claim_C7 :
    (∀ (tbl : LockTable) (lock : Lock) (ttlMs now : Nat),
        (∀ r ∈ tbl, ¬(r.threadId = lock.threadId ∧ r.token = lock.token)) →
          extendLock tbl lock ttlMs now = (tbl, false)) ∧
    (∀ (tbl : LockTable) (lock : Lock) (ttlMs now : Nat),
        (∀ r ∈ tbl, r.threadId = lock.threadId → r.token = lock.token →
            r.expiresAt ≤ now) →
          extendLock tbl lock ttlMs now = (tbl, false)) ∧
    (∀ (tbl : LockTable) (lock : Lock),
        (∀ r ∈ tbl, ¬(r.threadId = lock.threadId ∧ r.token = lock.token)) →
          releaseLock tbl lock = tbl) ∧
    (∀ (tbl : LockTable) (lock : Lock) (r : LockRow),
        r ∈ tbl → r.token ≠ lock.token → r ∈ releaseLock tbl lock) ∧
    (∀ (tbl : LockTable) (lock : Lock) (r : LockRow),
        r ∈ tbl → r ∉ releaseLock tbl lock →
          r.threadId = lock.threadId ∧ r.token = lock.token) := by
  refine ⟨?_, ?_, ?_, ?_, ?_⟩
  · intro tbl lock ttlMs now h
    apply extendLock_noop
    intro r hr
    have := h r hr
    simp only [extendLockHit, Bool.and_eq_false_iff]
    by_cases h1 : r.threadId = lock.threadId
    · by_cases h2 : r.token = lock.token
      · exact absurd ⟨h1, h2⟩ this
      · exact Or.inl (by simp [h2])
    · exact Or.inl (by simp [h1])
  · intro tbl lock ttlMs now h
    apply extendLock_noop
    intro r hr
    simp only [extendLockHit, Bool.and_eq_false_iff]
    by_cases h1 : r.threadId = lock.threadId
    · by_cases h2 : r.token = lock.token
      · exact Or.inr (by simpa using h r hr h1 h2)
      · exact Or.inl (by simp [h2])
    · exact Or.inl (by simp [h1])
  · intro tbl lock h
    apply List.filter_eq_self.mpr
    intro r hr
    have := h r hr
    simp only [Bool.not_eq_eq_eq_not, Bool.not_true, Bool.and_eq_false_iff]
    by_cases h1 : r.threadId = lock.threadId
    · by_cases h2 : r.token = lock.token
      · exact absurd ⟨h1, h2⟩ this
      · exact Or.inr (by simp [h2])
    · exact Or.inl (by simp [h1])
  · intro tbl lock r hr htok
    apply List.mem_filter.mpr
    exact ⟨hr, by simp [htok]⟩
  · intro tbl lock r hr hnot
    by_contra hcon
    apply hnot
    apply List.mem_filter.mpr
    refine ⟨hr, ?_⟩
    by_cases h1 : r.threadId = lock.threadId
    · by_cases h2 : r.token = lock.token
      · exact absurd ⟨h1, h2⟩ hcon
      · simp [h2]
    · simp [h1]

theorem claim_C7_witness :
    extendLock [⟨"t1", "a", 100, 0⟩] ⟨"t1", "b", 100⟩ 500 50
      = ([⟨"t1", "a", 100, 0⟩], false) ∧
    extendLock [⟨"t1", "a", 100, 0⟩] ⟨"t1", "a", 100⟩ 500 150
      = ([⟨"t1", "a", 100, 0⟩], false) ∧
    releaseLock [⟨"t1", "a", 100, 0⟩] ⟨"t1", "b", 100⟩ = [⟨"t1", "a", 100, 0⟩] ∧
    (⟨"t1", "a", 100, 0⟩ : LockRow) ∈ releaseLock [⟨"t1", "a", 100, 0⟩] ⟨"t1", "b", 100⟩ :=
  ⟨claim_C7.1 _ _ 500 50 (by decide),
   claim_C7.2.1 _ _ 500 150 (by decide),
   claim_C7.2.2.1 _ _ (by decide),
   claim_C7.2.2.2.1 _ _ _ (by decide) (by decide)⟩

/-! ### State adapter: TTL cache (`src/adapters/state-postgres.ts`) -/

/-- Row of the `state_cache` table (`key` is the primary key); the JSON value
is modelled by an opaque type `V` (the `JSON.parse(JSON.stringify(v))` round
trip is the identity on representable values). -/
structure CacheRow (V : Type) where
  key : String
  value : V
  expiresAt : Option Nat
  createdAt : Nat
  deriving DecidableEq, Repr

/-- SQL predicate `expires_at < now`, false on a NULL expiry. -/
def cacheRowExpired {V : Type} (r : CacheRow V) (now : Nat) : Bool :=
  match r.expiresAt with
  | some e => decide (e < now)
  | none => false

/-- Source `cleanupExpiredKey(key)`:
`DELETE FROM state_cache WHERE key = key AND expires_at < now`. -/
def cleanupExpiredKey {V : Type} (tbl : List (CacheRow V)) (key : String) (now : Nat) :
    List (CacheRow V) :=
  tbl.filter fun r => !(r.key == key && cacheRowExpired r now)

/-- Source `get(key)`: clean up the expired entry for the key, then select the
value; returns the updated table together with the read result. -/
def cacheGet {V : Type} (tbl : List (CacheRow V)) (key : String) (now : Nat) :
    List (CacheRow V) × Option V :=
  ((cleanupExpiredKey tbl key now),
   ((cleanupExpiredKey tbl key now).find? fun r => r.key == key).map fun r => r.value)

/-- Expiry computed by `set`: `ttlMs ? new Date(Date.now() + ttlMs) : null`;
a `ttlMs` of `0` is falsy in JavaScript and yields no expiry. -/
def cacheExpiry (ttlMs : Option Nat) (now : Nat) : Option Nat :=
  match ttlMs with
  | some t => if t = 0 then none else some (now + t)
  | none => none

/-- Source `set(key, value, ttlMs?)`: insert, or on primary-key conflict update
the stored value and expiry of the existing row. -/
def cacheSet {V : Type} (tbl : List (CacheRow V)) (key : String) (value : V)
    (ttlMs : Option Nat) (now : Nat) : List (CacheRow V) :=
  if tbl.any fun r => r.key == key then
    tbl.map fun r =>
      if r.key == key then { r with value := value, expiresAt := cacheExpiry ttlMs now }
      else r
  else
    tbl ++ [⟨key, value, cacheExpiry ttlMs now, now⟩]

/-- Source `delete(key)`: `DELETE FROM state_cache WHERE key = key`. -/
def cacheDelete {V : Type} (tbl : List (CacheRow V)) (key : String) : List (CacheRow V) :=
  tbl.filter fun r => !(r.key == key)

/-- After `set`, every row for the key stores the new value and expiry. -/
theorem cacheSet_keyRows {V : Type} (tbl : List (CacheRow V)) (key : String) (value : V)
    (ttlMs : Option Nat) (now : Nat) :
    ∀ r ∈ cacheSet tbl key value ttlMs now, r.key = key →
      r.value = value ∧ r.expiresAt = cacheExpiry ttlMs now := by
  unfold cacheSet
  by_cases hc : (tbl.any fun r => r.key == key) = true
  · rw [if_pos hc]
    intro r hr hrk
    obtain ⟨a, ha, hra⟩ := List.mem_map.mp hr
    by_cases hak : a.key = key
    · rw [if_pos (by simp [hak])] at hra
      subst hra
      exact ⟨rfl, rfl⟩
    · rw [if_neg (by simp [hak])] at hra
      subst hra
      exact absurd hrk hak
  · rw [if_neg hc]
    intro r hr hrk
    rcases List.mem_append.mp hr with hmem | hmem
    · rw [Bool.not_eq_true, List.any_eq_false] at hc
      have := hc r hmem
      simp [hrk] at this
    · simp only [List.mem_singleton] at hmem
      subst hmem
      exact ⟨rfl, rfl⟩

/-- After `set`, some row for the key is present. -/
theorem cacheSet_exists_keyRow {V : Type} (tbl : List (CacheRow V)) (key : String)
    (value : V) (ttlMs : Option Nat) (now : Nat) :
    ∃ r ∈ cacheSet tbl key value ttlMs now, r.key = key := by
  unfold cacheSet
  by_cases hc : (tbl.any fun r => r.key == key) = true
  · rw [if_pos hc]
    obtain ⟨a, ha, hak⟩ := List.any_eq_true.mp hc
    refine ⟨if a.key = key then { a with value := value, expiresAt := cacheExpiry ttlMs now }
        else a, List.mem_map.mpr ⟨a, ha, by simp⟩, ?_⟩
    rw [if_pos (by simpa using hak)]
    simpa using hak
  · rw [if_neg hc]
    exact ⟨⟨key, value, cacheExpiry ttlMs now, now⟩, by simp, rfl⟩

/-- Rows set at instant `now` are not expired at instant `now`. -/
theorem cacheExpiry_not_expired {V : Type} (r : CacheRow V) (ttlMs : Option Nat) (now : Nat)
    (h : r.expiresAt = cacheExpiry ttlMs now) : cacheRowExpired r now = false := by
  unfold cacheRowExpired
  rw [h]
  cases hE : cacheExpiry ttlMs now with
  | none => rfl
  | some e =>
    have hle : now ≤ e := by
      rcases ttlMs with _ | t
      · simp [cacheExpiry] at hE
      · by_cases ht : t = 0
        · simp [cacheExpiry, ht] at hE
        · simp [cacheExpiry, ht] at hE
          omega
    simp only [decide_eq_false_iff_not]
    omega

theorem mem_cleanupExpiredKey {V : Type} {tbl : List (CacheRow V)} {r : CacheRow V}
    {key : String} {now : Nat} :
    r ∈ cleanupExpiredKey tbl key now ↔
      r ∈ tbl ∧ ¬(r.key = key ∧ cacheRowExpired r now = true) := by
  simp [cleanupExpiredKey, List.mem_filter]
  tauto

/-- Claim C8: cache TTL semantics.  `get` immediately after `set` returns the
value just stored; `get` at any instant strictly past a stored expiry removes
the expired row and returns none (in particular after `set` with a positive
TTL once the TTL has elapsed); and `set` on an existing key upserts, keeping
the table length and replacing the stored value and expiry of the key's row. -/
theorem claim_C8 :
    (∀ (V : Type) (tbl : List (CacheRow V)) (k : String) (v : V) (ttlMs : Option Nat)
        (now : Nat), (cacheGet (cacheSet tbl k v ttlMs now) k now).2 = some v) ∧
    (∀ (V : Type) (tbl : List (CacheRow V)) (k : String) (now : Nat),
        (∀ r ∈ tbl, r.key = k → ∃ e, r.expiresAt = some e ∧ e < now) →
          (cacheGet tbl k now).2 = none ∧
          ∀ r ∈ (cacheGet tbl k now).1, r.key ≠ k) ∧
    (∀ (V : Type) (tbl : List (CacheRow V)) (k : String) (v : V) (t : Nat) (now now' : Nat),
        0 < t → now + t < now' →
          (cacheGet (cacheSet tbl k v (some t) now) k now').2 = none) ∧
    (∀ (V : Type) (tbl : List (CacheRow V)) (k : String) (v : V) (ttlMs : Option Nat)
        (now : Nat), (tbl.any fun r => r.key == k) = true →
          (cacheSet tbl k v ttlMs now).length = tbl.length ∧
          ∀ r ∈ cacheSet tbl k v ttlMs now, r.key = k →
            r.value = v ∧ r.expiresAt = cacheExpiry ttlMs now) := by
  have hexp : ∀ (V : Type) (tbl : List (CacheRow V)) (k : String) (now : Nat),
      (∀ r ∈ tbl, r.key = k → ∃ e, r.expiresAt = some e ∧ e < now) →
        (cacheGet tbl k now).2 = none ∧ ∀ r ∈ (cacheGet tbl k now).1, r.key ≠ k := by
    intro V tbl k now h
    have hclean : ∀ r ∈ cleanupExpiredKey tbl k now, r.key ≠ k := by
      intro r hr
      rw [mem_cleanupExpiredKey] at hr
      intro hrk
      obtain ⟨e, he, hlt⟩ := h r hr.1 hrk
      exact hr.2 ⟨hrk, by simp [cacheRowExpired, he, hlt]⟩
    refine ⟨?_, hclean⟩
    have hnone : (cleanupExpiredKey tbl k now).find? (fun r => r.key == k) = none := by
      rw [List.find?_eq_none]
      intro r hr
      simpa using hclean r hr
    simp [cacheGet, hnone]
  refine ⟨?_, hexp, ?_, ?_⟩
  · intro V tbl k v ttlMs now
    unfold cacheGet
    have hkeep : ∀ r ∈ cacheSet tbl k v ttlMs now, r.key = k →
        r ∈ cleanupExpiredKey (cacheSet tbl k v ttlMs now) k now := by
      intro r hr hrk
      apply mem_cleanupExpiredKey.mpr
      refine ⟨hr, ?_⟩
      rintro ⟨-, hex⟩
      have := cacheExpiry_not_expired r ttlMs now (cacheSet_keyRows tbl k v ttlMs now r hr hrk).2
      rw [this] at hex
      exact absurd hex (by simp)
    obtain ⟨r0, hr0, hr0k⟩ := cacheSet_exists_keyRow tbl k v ttlMs now
    have hfind : ∃ r, (cleanupExpiredKey (cacheSet tbl k v ttlMs now) k now).find?
        (fun r => r.key == k) = some r := by
      rw [← Option.isSome_iff_exists]
      rw [List.find?_isSome]
      exact ⟨r0, hkeep r0 hr0 hr0k, by simp [hr0k]⟩
    obtain ⟨r, hr⟩ := hfind
    rw [hr]
    have hrk : r.key = k := by simpa using List.find?_some hr
    have hrmem : r ∈ cacheSet tbl k v ttlMs now :=
      (mem_cleanupExpiredKey.mp (List.mem_of_find?_eq_some hr)).1
    simp [(cacheSet_keyRows tbl k v ttlMs now r hrmem hrk).1]
  · intro V tbl k v t now now' ht hlt
    refine (hexp V (cacheSet tbl k v (some t) now) k now' ?_).1
    intro r hr hrk
    have := (cacheSet_keyRows tbl k v (some t) now r hr hrk).2
    rw [cacheExpiry, if_neg (by omega)] at this
    exact ⟨now + t, this, hlt⟩
  · intro V tbl k v ttlMs now hc
    refine ⟨?_, cacheSet_keyRows tbl k v ttlMs now⟩
    unfold cacheSet
    rw [if_pos hc]
    exact List.length_map _ _

theorem claim_C8_witness :
    (cacheGet (cacheSet ([] : List (CacheRow Nat)) "k" 7 (some 100) 0) "k" 0).2 = some 7 ∧
    (cacheGet (cacheSet ([] : List (CacheRow Nat)) "k" 7 (some 100) 0) "k" 150).2 = none ∧
    (cacheSet [(⟨"k", 1, none, 0⟩ : CacheRow Nat)] "k" 2 (some 5) 10).length = 1 :=
  ⟨claim_C8.1 Nat [] "k" 7 (some 100) 0,
   claim_C8.2.2.1 Nat [] "k" 7 100 0 150 (by decide) (by decide),
   (claim_C8.2.2.2 Nat [⟨"k", 1, none, 0⟩] "k" 2 (some 5) 10 (by decide)).1⟩

/-! ### Session registry and message history (`src/core/session-manager.ts`) -/

/-- Session status values of the `sandboxes` table. -/
inductive SessionStatus
  | active
  | idle
  | stopped
  deriving DecidableEq, Repr

/-- Source `ThreadContext` (stored as `context_json`). -/
structure ThreadContext where
  userId : String
  userName : String
  channelId : String
  channelName : String
  deriving DecidableEq, Repr

/-- Row of the `sandboxes` table (`thread_id` is the primary key), i.e. the
source `Session` record. -/
structure SessionRow where
  threadId : String
  codeInterpreterId : String
  volumeId : String
  status : SessionStatus
  context : ThreadContext
  createdAt : Nat
  lastActivity : Nat
  deriving DecidableEq, Repr

/-- Source `getSession(threadId)`: select the row for the thread. -/
def getSession (tbl : List SessionRow) (threadId : String) : Option SessionRow :=
  tbl.find? fun r => r.threadId == threadId

/-- Database failure surfaced by an insert: primary-key conflict. -/
inductive DbError
  | duplicateKey
  deriving DecidableEq, Repr

/-- Source `createSession(threadId, codeInterpreterId, volumeId, context)`:
insert a row with `status = active` and both timestamps set to now; a
primary-key conflict raises (`DuplicateSessionError`). -/
def createSession (tbl : List SessionRow) (threadId ciid volumeId : String)
    (ctx : ThreadContext) (now : Nat) : Except DbError (List SessionRow × SessionRow) :=
  if tbl.any fun r => r.threadId == threadId then .error .duplicateKey
  else .ok (tbl ++ [⟨threadId, ciid, volumeId, .active, ctx, now, now⟩],
    ⟨threadId, ciid, volumeId, .active, ctx, now, now⟩)

/-- Row of the `messages` table. -/
structure MessageRow where
  threadId : String
  sequenceNumber : Nat
  role : String
  content : String
  metadata : String
  createdAt : Nat
  deriving DecidableEq, Repr

/-- Entry returned by `getConversationHistory`. -/
structure HistoryEntry where
  role : String
  content : String
  metadata : String
  timestamp : Nat
  deriving DecidableEq, Repr

/-- Messages of one thread: `WHERE thread_id = threadId`. -/
def threadMessages (tbl : List MessageRow) (threadId : String) : List MessageRow :=
  tbl.filter fun m => m.threadId == threadId

/-- Comparator of `ORDER BY sequence_number DESC`. -/
def seqDesc (a b : MessageRow) : Bool := decide (b.sequenceNumber ≤ a.sequenceNumber)

/-- Message rows selected by `getConversationHistory`: the thread's messages
ordered by descending sequence number, limited, then reversed in memory. -/
def historyRows (tbl : List MessageRow) (threadId : String) (limit : Nat) :
    List MessageRow :=
  (((threadMessages tbl threadId).mergeSort seqDesc).take limit).reverse

/-- Source `getConversationHistory(threadId, limit = 10)`. -/
def getConversationHistory (tbl : List MessageRow) (threadId : String)
    (limit : Nat := 10) : List HistoryEntry :=
  (historyRows tbl threadId limit).map fun m => ⟨m.role, m.content, m.metadata, m.createdAt⟩

theorem seqDesc_trans : ∀ a b c, seqDesc a b = true → seqDesc b c = true →
    seqDesc a c = true := by
  intro a b c hab hbc
  simp only [seqDesc, decide_eq_true_eq] at *
  omega

theorem seqDesc_total : ∀ a b, (seqDesc a b || seqDesc b a) = true := by
  intro a b
  simp only [seqDesc, Bool.or_eq_true, decide_eq_true_eq]
  omega

/-- Descending-sort view of the selected rows (before the final reverse). -/
theorem historyRows_eq (tbl : List MessageRow) (t : String) (n : Nat) :
    historyRows tbl t n
      = (((threadMessages tbl t).mergeSort seqDesc).take n).reverse := rfl

theorem mergeSort_seqDesc_pairwise (l : List MessageRow) :
    (l.mergeSort seqDesc).Pairwise
      fun a b => b.sequenceNumber ≤ a.sequenceNumber := by
  have h := List.sorted_mergeSort seqDesc_trans seqDesc_total l
  exact h.imp fun hab => by simpa [seqDesc] using hab

theorem historyRows_length (tbl : List MessageRow) (t : String) (n : Nat) :
    (historyRows tbl t n).length = min n (threadMessages tbl t).length := by
  rw [historyRows_eq, List.length_reverse, List.length_take, List.length_mergeSort]

theorem historyRows_subset (tbl : List MessageRow) (t : String) (n : Nat) :
    ∀ m ∈ historyRows tbl t n, m ∈ threadMessages tbl t := by
  intro m hm
  rw [historyRows_eq, List.mem_reverse] at hm
  exact (List.mergeSort_perm (threadMessages tbl t) seqDesc).mem_iff.mp
    (List.mem_of_mem_take hm)

/-- Distinct sequence numbers within the thread (the schema's unique
constraint on `(thread_id, sequence_number)`). -/
def SeqNumbersDistinct (tbl : List MessageRow) (t : String) : Prop :=
  (threadMessages tbl t).Pairwise fun a b => a.sequenceNumber ≠ b.sequenceNumber

theorem historyRows_sorted {tbl : List MessageRow} {t : String} (n : Nat)
    (hd : SeqNumbersDistinct tbl t) :
    (historyRows tbl t n).Pairwise
      fun a b => a.sequenceNumber < b.sequenceNumber := by
  have hsort := (mergeSort_seqDesc_pairwise (threadMessages tbl t)).sublist
    (List.take_sublist n _)
  have hne : ((threadMessages tbl t).mergeSort seqDesc).Pairwise
      (fun a b => a.sequenceNumber ≠ b.sequenceNumber) := by
    refine ((List.mergeSort_perm (threadMessages tbl t) seqDesc).pairwise_iff ?_).mpr hd
    intro a b hab
    omega
  have hne' := hne.sublist (List.take_sublist n _)
  rw [historyRows_eq]
  rw [List.pairwise_reverse]
  exact (hsort.and hne').imp fun hab => by omega

theorem historyRows_separation {tbl : List MessageRow} {t : String} (n : Nat)
    (hd : SeqNumbersDistinct tbl t) :
    ∀ x ∈ historyRows tbl t n, ∀ y ∈ threadMessages tbl t,
      y ∉ historyRows tbl t n → y.sequenceNumber < x.sequenceNumber := by
  intro x hx y hy hyn
  rw [historyRows_eq, List.mem_reverse] at hx hyn
  have hyperm : y ∈ (threadMessages tbl t).mergeSort seqDesc :=
    (List.mergeSort_perm (threadMessages tbl t) seqDesc).mem_iff.mpr hy
  have hydrop : y ∈ ((threadMessages tbl t).mergeSort seqDesc).drop n := by
    rcases List.mem_append.mp
        (by rwa [List.take_append_drop] : y ∈
          ((threadMessages tbl t).mergeSort seqDesc).take n ++
            ((threadMessages tbl t).mergeSort seqDesc).drop n) with h | h
    · exact absurd h hyn
    · exact h
  have hsort := mergeSort_seqDesc_pairwise (threadMessages tbl t)
  have hne : ((threadMessages tbl t).mergeSort seqDesc).Pairwise
      (fun a b => a.sequenceNumber ≠ b.sequenceNumber) := by
    refine ((List.mergeSort_perm (threadMessages tbl t) seqDesc).pairwise_iff ?_).mpr hd
    intro a b hab
    omega
  have hsplit := List.pairwise_append.mp
    (by rwa [List.take_append_drop] :
      (((threadMessages tbl t).mergeSort seqDesc).take n ++
        ((threadMessages tbl t).mergeSort seqDesc).drop n).Pairwise
          fun a b => b.sequenceNumber ≤ a.sequenceNumber)
  have hsplitne := List.pairwise_append.mp
    (by rwa [List.take_append_drop] :
      (((threadMessages tbl t).mergeSort seqDesc).take n ++
        ((threadMessages tbl t).mergeSort seqDesc).drop n).Pairwise
          fun a b => a.sequenceNumber ≠ b.sequenceNumber)
  have hle := hsplit.2.2 x hx y hydrop
  have hneq := hsplitne.2.2 x hx y hydrop
  omega

/-- Claim C10: `getConversationHistory` returns at most `limit` messages —
under the schema's per-thread uniqueness of sequence numbers, exactly those
with the largest sequence numbers stored for the thread — ordered by
ascending sequence number (chronological, newest last). -/
theorem claim_C10 :
    (∀ (tbl : List MessageRow) (t : String) (n : Nat),
        getConversationHistory tbl t n
          = (historyRows tbl t n).map fun m => ⟨m.role, m.content, m.metadata, m.createdAt⟩) ∧
    (∀ (tbl : List MessageRow) (t : String) (n : Nat),
        (historyRows tbl t n).length = min n (threadMessages tbl t).length) ∧
    (∀ (tbl : List MessageRow) (t : String) (n : Nat),
        ∀ m ∈ historyRows tbl t n, m ∈ threadMessages tbl t) ∧
    (∀ (tbl : List MessageRow) (t : String) (n : Nat), SeqNumbersDistinct tbl t →
        (historyRows tbl t n).Pairwise
          fun a b => a.sequenceNumber < b.sequenceNumber) ∧
    (∀ (tbl : List MessageRow) (t : String) (n : Nat), SeqNumbersDistinct tbl t →
        ∀ x ∈ historyRows tbl t n, ∀ y ∈ threadMessages tbl t,
          y ∉ historyRows tbl t n → y.sequenceNumber < x.sequenceNumber) :=
  ⟨fun _ _ _ => rfl, historyRows_length, historyRows_subset,
   fun _ _ n hd => historyRows_sorted n hd,
   fun _ _ n hd => historyRows_separation n hd⟩

theorem claim_C10_witness :
    (historyRows
      [⟨"t", 1, "user", "a", "", 10⟩, ⟨"t", 3, "user", "c", "", 30⟩,
       ⟨"t", 2, "user", "b", "", 20⟩, ⟨"u", 9, "user", "z", "", 90⟩] "t" 2).Pairwise
      (fun a b => a.sequenceNumber < b.sequenceNumber) :=
  claim_C10.2.2.2.1
    [⟨"t", 1, "user", "a", "", 10⟩, ⟨"t", 3, "user", "c", "", 30⟩,
     ⟨"t", 2, "user", "b", "", 20⟩, ⟨"u", 9, "user", "z", "", 90⟩] "t" 2
    (by unfold SeqNumbersDistinct threadMessages; decide)

/-! ### Local container backend (`src/sandbox/providers/local-docker.ts`) -/

/-- Character class kept by `sanitizeName` (the complement of `[^a-zA-Z0-9_-]`). -/
def isNameSafeChar (c : Char) : Bool :=
  (decide ('a' ≤ c) && decide (c ≤ 'z')) || (decide ('A' ≤ c) && decide (c ≤ 'Z')) ||
  (decide ('0' ≤ c) && decide (c ≤ '9')) || c == '_' || c == '-'

/-- Source `sanitizeName(threadId)`: replace every other character with a dash,
then lower-case. -/
def sanitizeName (threadId : String) : String :=
  ⟨(threadId.data.map fun c => if isNameSafeChar c then c else '-').map Char.toLower⟩

/-- Source `getContainerName(threadId)`. -/
def getContainerName (threadId : String) : String :=
  "gurt-sandbox-" ++ sanitizeName threadId

/-- Source `getVolumeName(threadId)`. -/
def getVolumeName (threadId : String) : String :=
  "gurt-workspace-" ++ sanitizeName threadId

/-- Docker container as the provider observes it. -/
structure Container where
  name : String
  running : Bool
  hostPort : Nat
  deriving DecidableEq, Repr

/-- Observable docker daemon state: named volumes and containers. -/
structure DockerState where
  volumes : List String
  containers : List Container
  deriving DecidableEq, Repr

/-- Source `ensureVolume`: inspect, create when absent. -/
def ensureVolume (st : DockerState) (volumeName : String) : DockerState :=
  if volumeName ∈ st.volumes then st
  else { st with volumes := st.volumes ++ [volumeName] }

/-- Negation of `isPortAvailable`: some running container publishes the port
(`listContainers` lists running containers). -/
def occupiedPort (st : DockerState) (port : Nat) : Bool :=
  st.containers.any fun c => c.running && c.hostPort == port

/-- Effect of `container.start()` on a stopped container. -/
def startContainer (st : DockerState) (name : String) : DockerState :=
  { st with containers := st.containers.map fun c =>
      if c.name == name then { c with running := true } else c }

/-- Effect of the rollback `container.stop(); container.remove()`. -/
def removeContainer (st : DockerState) (name : String) : DockerState :=
  { st with containers := st.containers.filter fun c => !(c.name == name) }

/-- Session handle returned by the local provider (`SandboxSession`); the RPC
client is `createClient(port)`, represented by its port. -/
structure DockerSession where
  threadId : String
  sessionId : String
  volumeId : String
  clientPort : Nat
  deriving DecidableEq, Repr

/-- Health-wait loop of the provider: up to `maxAttempts = 30` one-second
polls; `healthyAt i` abstracts the observation of attempt `i` (container
running and healthy, or running with no health check configured). -/
def healthReached (healthyAt : Nat → Bool) : Bool :=
  (List.range 30).any healthyAt

/-- Source `getOrCreateSession(threadId, userId)` of the local provider:
ensure the volume, reuse or restart an existing container, otherwise pick a
port, create and start the container and poll health, rolling back the
container (but not the volume) when health is never reached. -/
def dockerGetOrCreateSession (st : DockerState) (threadId : String)
    (healthyAt : Nat → Bool) : DockerState × Except String DockerSession :=
  match (ensureVolume st (getVolumeName threadId)).containers.find?
      (fun c => c.name == getContainerName threadId) with
  | some c =>
    if c.running then
      (ensureVolume st (getVolumeName threadId),
       .ok ⟨threadId, getContainerName threadId, getVolumeName threadId, c.hostPort⟩)
    else
      (startContainer (ensureVolume st (getVolumeName threadId)) (getContainerName threadId),
       .ok ⟨threadId, getContainerName threadId, getVolumeName threadId, c.hostPort⟩)
  | none =>
    match findAvailablePort (occupiedPort (ensureVolume st (getVolumeName threadId)))
        threadId with
    | none =>
      (ensureVolume st (getVolumeName threadId),
       .error "Could not find available port after 100 attempts")
    | some hostPort =>
      if healthReached healthyAt then
        ({ ensureVolume st (getVolumeName threadId) with containers :=
            (ensureVolume st (getVolumeName threadId)).containers ++
              [⟨getContainerName threadId, true, hostPort⟩] },
         .ok ⟨threadId, getContainerName threadId, getVolumeName threadId, hostPort⟩)
      else
        (removeContainer
          { ensureVolume st (getVolumeName threadId) with containers :=
              (ensureVolume st (getVolumeName threadId)).containers ++
                [⟨getContainerName threadId, true, hostPort⟩] }
          (getContainerName threadId),
         .error "Container failed to become healthy after 30 seconds")

/-- Source `stopSandbox(sessionId)` of the local provider: inspect, stop when
running; every failure (missing container via `stopFails = false` path with no
match, or a failing `stop` call, abstracted by `stopFails`) is caught and
logged, never rethrown, and no volume is touched. -/
def localStopSandbox (st : DockerState) (sessionId : String) (stopFails : Bool) :
    DockerState × Except String Unit :=
  match st.containers.find? (fun c => c.name == sessionId) with
  | none => (st, .ok ())
  | some c =>
    if c.running then
      if stopFails then (st, .ok ())
      else
        ({ st with containers := st.containers.map fun c2 =>
            if c2.name == sessionId then { c2 with running := false } else c2 },
         .ok ())
    else (st, .ok ())

/-- Source `isSandboxActive(sessionId)` of the local provider: inspect and
report `State.Running`; a missing container reads as inactive. -/
def localIsSandboxActive (st : DockerState) (sessionId : String) : Bool :=
  match st.containers.find? (fun c => c.name == sessionId) with
  | none => false
  | some c => c.running

/-! ### Remote managed backend (`src/sandbox/providers/bedrock.ts`) -/

/-- Observable remote environment of the bedrock provider: the outcome of the
stop API call per session id, and the set of EBS volumes. -/
structure BedrockEnv where
  stopOutcome : String → Except String Unit
  volumes : List String

/-- Source `stopSandbox(sessionId)` of the bedrock provider: it sends
`StopCodeInterpreterSessionCommand` with no `try`/`catch`, so the call's
outcome — including a failure — is returned (propagated) verbatim, and no
volume API is invoked. -/
def bedrockStopSandbox (env : BedrockEnv) (sessionId : String) :
    Except String Unit × List String :=
  (env.stopOutcome sessionId, env.volumes)

/-- Counterexample to claim C6: in the bedrock provider a failing stop API
call propagates out of `stopSandbox` instead of being logged and swallowed. -/
theorem claim_C6_counterexample :
    (bedrockStopSandbox ⟨fun _ => .error "network failure", ["vol-1"]⟩ "s1").1
      = .error "network failure" := rfl

/-- Claim C6 as amended: `stopSandbox` never deletes a volume in either
backend; in the local provider every failure is caught (it always returns
normally); in the bedrock provider the stop call's failure propagates to the
caller verbatim. -/
theorem claim_C6_amended :
    (∀ (st : DockerState) (sessionId : String) (stopFails : Bool),
        (localStopSandbox st sessionId stopFails).2 = .ok ()) ∧
    (∀ (st : DockerState) (sessionId : String) (stopFails : Bool),
        (localStopSandbox st sessionId stopFails).1.volumes = st.volumes) ∧
    (∀ (env : BedrockEnv) (sessionId : String),
        (bedrockStopSandbox env sessionId).2 = env.volumes) ∧
    (∀ (env : BedrockEnv) (sessionId : String),
        (bedrockStopSandbox env sessionId).1 = env.stopOutcome sessionId) := by
  refine ⟨?_, ?_, fun _ _ => rfl, fun _ _ => rfl⟩
  · intro st sessionId stopFails
    unfold localStopSandbox
    cases st.containers.find? (fun c => c.name == sessionId) with
    | none => rfl
    | some c =>
      by_cases hr : c.running
      · simp only [hr, if_true]
        by_cases hf : stopFails
        · simp [hf]
        · simp [hf]
      · simp [hr]
  · intro st sessionId stopFails
    unfold localStopSandbox
    cases st.containers.find? (fun c => c.name == sessionId) with
    | none => rfl
    | some c =>
      by_cases hr : c.running
      · simp only [hr, if_true]
        by_cases hf : stopFails
        · simp [hf]
        · simp [hf]
      · simp [hr]

/-! ### Get-or-create flow (`src/core/agent-controller.ts`) -/

/-- Observable calls made by `getOrCreateSandboxSession` against the state
adapter, the session registry and the sandbox backend. -/
inductive CtrlCall
  | acquireLockCall
  | registryLookup
  | backendIsActive (sessionId : String)
  | backendStop (sessionId : String)
  | backendCreate
  | registryInsert
  deriving DecidableEq, Repr

/-- Result of the backend's `getOrCreateSession`: ids plus the RPC client it
constructed, represented by the client's endpoint. -/
structure BackendSession where
  sessionId : String
  volumeId : String
  clientEndpoint : String
  deriving DecidableEq, Repr

/-- Abstract sandbox backend as consumed by the controller (`SandboxProvider`):
the liveness answer per session id and the outcome of a provisioning call. -/
structure Backend where
  isActive : String → Bool
  create : Except String BackendSession

/-- Value returned by the controller's `getOrCreateSandboxSession`; `client`
is `none` exactly where the source returns a null client. -/
structure CtrlResult where
  sessionId : String
  volumeId : String
  client : Option String
  deriving DecidableEq, Repr

/-- Outcome of one run of the flow: the registry afterwards, the trace of
calls made, and the returned value or error. -/
structure CtrlOut where
  registry : List SessionRow
  calls : List CtrlCall
  result : Except String CtrlResult
  deriving Repr

/-- Tail of the source `getOrCreateSandboxSession` after the reuse check
falls through: call the backend's `getOrCreateSession`, then persist the
registry row; an error in either step propagates with no insert retry. -/
def createFlow (reg : List SessionRow) (backend : Backend) (threadId : String)
    (ctx : ThreadContext) (now : Nat) (calls : List CtrlCall) : CtrlOut :=
  match backend.create with
  | .error e => { registry := reg, calls := calls ++ [.backendCreate], result := .error e }
  | .ok b =>
    match createSession reg threadId b.sessionId b.volumeId ctx now with
    | .error .duplicateKey =>
      { registry := reg, calls := calls ++ [.backendCreate, .registryInsert],
        result := .error "DuplicateSessionError" }
    | .ok (reg2, _) =>
      { registry := reg2, calls := calls ++ [.backendCreate, .registryInsert],
        result := .ok ⟨b.sessionId, b.volumeId, some b.clientEndpoint⟩ }

/-- Source `getOrCreateSandboxSession(deps, threadId, context)`: look up the
registry; on an active row ask the backend for liveness and reuse (returning
the stored ids and a null client); on a dead or absent row stop the stale
session if needed and fall through to creation.  No lock is acquired anywhere
in the source function. -/
def getOrCreateSandboxSession (reg : List SessionRow) (backend : Backend)
    (threadId : String) (ctx : ThreadContext) (now : Nat) : CtrlOut :=
  match getSession reg threadId with
  | some s =>
    if s.status = .active then
      if backend.isActive s.codeInterpreterId then
        { registry := reg,
          calls := [.registryLookup, .backendIsActive s.codeInterpreterId],
          result := .ok ⟨s.codeInterpreterId, s.volumeId, none⟩ }
      else
        createFlow reg backend threadId ctx now
          [.registryLookup, .backendIsActive s.codeInterpreterId,
           .backendStop s.codeInterpreterId]
    else
      createFlow reg backend threadId ctx now [.registryLookup]
  | none => createFlow reg backend threadId ctx now [.registryLookup]

/-- Operations claim C1 requires to run under the thread's lock. -/
def mutatingOrLookup (c : CtrlCall) : Bool :=
  match c with
  | .registryLookup => true
  | .backendCreate => true
  | .registryInsert => true
  | _ => false

/-- Formalization of claim C1 on a call trace: every registry lookup, backend
provisioning call and registry insert is preceded by an `acquireLock` call. -/
def LockHeldThroughout (calls : List CtrlCall) : Prop :=
  ∀ (pre : List CtrlCall) (c : CtrlCall) (post : List CtrlCall),
    calls = pre ++ c :: post → mutatingOrLookup c = true →
      CtrlCall.acquireLockCall ∈ pre

/-- Counterexample to claim C1: a concrete run of the get-or-create flow (no
prior session, successful provisioning) whose trace performs the registry
lookup, the provisioning call and the insert with no preceding `acquireLock`
call. -/
theorem claim_C1_counterexample :
    ¬ LockHeldThroughout
        (getOrCreateSandboxSession [] ⟨fun _ => false, .ok ⟨"s1", "v1", "e1"⟩⟩
          "t1" ⟨"u1", "u1", "c1", "chan"⟩ 0).calls := by
  intro h
  have hmem := h [] .registryLookup [.backendCreate, .registryInsert] rfl rfl
  simp at hmem

theorem createFlow_no_acquire (reg : List SessionRow) (backend : Backend)
    (threadId : String) (ctx : ThreadContext) (now : Nat) (calls : List CtrlCall)
    (h : CtrlCall.acquireLockCall ∉ calls) :
    CtrlCall.acquireLockCall ∉ (createFlow reg backend threadId ctx now calls).calls := by
  unfold createFlow
  cases backend.create with
  | error e => simpa using fun hc => absurd hc h
  | ok b =>
    cases hcs : createSession reg threadId b.sessionId b.volumeId ctx now with
    | error e =>
      cases e
      simp only [hcs]
      simpa using fun hc => absurd hc h
    | ok p =>
      simp only [hcs]
      simpa using fun hc => absurd hc h

/-- Claim C1 as amended: the get-or-create flow always performs its registry
lookup (every trace contains one), and acquires no lock at any point — the
state adapter's `acquireLock` has no caller in the flow. -/
theorem claim_C1_amended :
    (∀ (reg : List SessionRow) (backend : Backend) (threadId : String)
        (ctx : ThreadContext) (now : Nat),
        CtrlCall.registryLookup ∈
          (getOrCreateSandboxSession reg backend threadId ctx now).calls) ∧
    (∀ (reg : List SessionRow) (backend : Backend) (threadId : String)
        (ctx : ThreadContext) (now : Nat),
        CtrlCall.acquireLockCall ∉
          (getOrCreateSandboxSession reg backend threadId ctx now).calls) := by
  have hlookup : ∀ (reg : List SessionRow) (backend : Backend) (threadId : String)
      (ctx : ThreadContext) (now : Nat) (calls : List CtrlCall),
      CtrlCall.registryLookup ∈ calls →
        CtrlCall.registryLookup ∈ (createFlow reg backend threadId ctx now calls).calls := by
    intro reg backend threadId ctx now calls h
    unfold createFlow
    cases backend.create with
    | error e => simp [h]
    | ok b =>
      cases hcs : createSession reg threadId b.sessionId b.volumeId ctx now with
      | error e => cases e; simp only [hcs]; simp [h]
      | ok p => simp only [hcs]; simp [h]
  constructor
  · intro reg backend threadId ctx now
    unfold getOrCreateSandboxSession
    split
    · split
      · split
        · simp
        · exact hlookup reg backend threadId ctx now _ (by simp)
      · exact hlookup reg backend threadId ctx now _ (by simp)
    · exact hlookup reg backend threadId ctx now _ (by simp)
  · intro reg backend threadId ctx now
    unfold getOrCreateSandboxSession
    split
    · split
      · split
        · simp
        · exact createFlow_no_acquire reg backend threadId ctx now _ (by simp)
      · exact createFlow_no_acquire reg backend threadId ctx now _ (by simp)
    · exact createFlow_no_acquire reg backend threadId ctx now _ (by simp)

/-- Claim C5, evaluated at its failing input: with a stored active session the
backend reports live, the flow reuses the stored `codeInterpreterId` and
`volumeId`, calls neither provisioning nor insert and leaves the registry
unchanged — but the client it returns is null (`none`), not a client
reconstructed from the stored endpoint as the spec requires. -/
theorem claim_C5_bug :
    getOrCreateSandboxSession
        [⟨"t1", "ci-1", "vol-1", .active, ⟨"u1", "u1", "c1", "chan"⟩, 0, 0⟩]
        ⟨fun _ => true, .ok ⟨"s-new", "v-new", "e-new"⟩⟩ "t1"
        ⟨"u1", "u1", "c1", "chan"⟩ 5
      = { registry := [⟨"t1", "ci-1", "vol-1", .active, ⟨"u1", "u1", "c1", "chan"⟩, 0, 0⟩],
          calls := [.registryLookup, .backendIsActive "ci-1"],
          result := .ok ⟨"ci-1", "vol-1", none⟩ } := rfl

theorem ensureVolume_mem (st : DockerState) (volumeName : String) :
    volumeName ∈ (ensureVolume st volumeName).volumes := by
  unfold ensureVolume
  by_cases h : volumeName ∈ st.volumes
  · rwa [if_pos h]
  · rw [if_neg h]
    simp

/-- Claim C3: provisioning atomicity.  When no container exists for the
thread, a free port is found, and health is never reached within the 30
bounded attempts, the local provider raises an error, the created container
is stopped and removed, and the thread's volume survives; and whenever the
backend's provisioning call fails, the controller writes no registry row and
leaves the registry unchanged. -/
theorem claim_C3 :
    (∀ (st : DockerState) (t : String) (healthyAt : Nat → Bool) (p : Nat),
        (ensureVolume st (getVolumeName t)).containers.find?
            (fun c => c.name == getContainerName t) = none →
        (∀ i, i < 30 → healthyAt i = false) →
        findAvailablePort (occupiedPort (ensureVolume st (getVolumeName t))) t = some p →
          (dockerGetOrCreateSession st t healthyAt).2
              = .error "Container failed to become healthy after 30 seconds" ∧
          (∀ c ∈ (dockerGetOrCreateSession st t healthyAt).1.containers,
              c.name ≠ getContainerName t) ∧
          getVolumeName t ∈ (dockerGetOrCreateSession st t healthyAt).1.volumes ∧
          (dockerGetOrCreateSession st t healthyAt).1.volumes
              = (ensureVolume st (getVolumeName t)).volumes) ∧
    (∀ (reg : List SessionRow) (backend : Backend) (t : String) (ctx : ThreadContext)
        (now : Nat) (e : String), backend.create = .error e →
          (getOrCreateSandboxSession reg backend t ctx now).registry = reg ∧
          CtrlCall.registryInsert ∉ (getOrCreateSandboxSession reg backend t ctx now).calls) := by
  constructor
  · intro st t healthyAt p hfind hhealth hport
    have hhr : healthReached healthyAt = false := by
      rw [healthReached, List.any_eq_false]
      intro i hi
      simp [hhealth i (List.mem_range.mp hi)]
    unfold dockerGetOrCreateSession
    rw [hfind, hport]
    simp only [hhr, Bool.false_eq_true, if_false]
    refine ⟨trivial, ?_, ?_, rfl⟩
    · intro c hc
      simp only [removeContainer, List.mem_filter, Bool.not_eq_eq_eq_not, Bool.not_true,
        beq_eq_false_iff_ne, ne_eq] at hc
      exact hc.2
    · exact ensureVolume_mem st (getVolumeName t)
  · intro reg backend t ctx now e hcreate
    have hflow : ∀ calls : List CtrlCall, CtrlCall.registryInsert ∉ calls →
        (createFlow reg backend t ctx now calls).registry = reg ∧
        CtrlCall.registryInsert ∉ (createFlow reg backend t ctx now calls).calls := by
      intro calls h
      unfold createFlow
      rw [hcreate]
      exact ⟨rfl, by simpa using fun hc => absurd hc h⟩
    unfold getOrCreateSandboxSession
    split
    · split
      · split
        · simp
        · exact hflow _ (by simp)
      · exact hflow _ (by simp)
    · exact hflow _ (by simp)

theorem claim_C3_witness :
    ((dockerGetOrCreateSession ⟨[], []⟩ "t1" fun _ => false).2
        = .error "Container failed to become healthy after 30 seconds" ∧
     (∀ c ∈ (dockerGetOrCreateSession ⟨[], []⟩ "t1" fun _ => false).1.containers,
        c.name ≠ getContainerName "t1") ∧
     getVolumeName "t1" ∈ (dockerGetOrCreateSession ⟨[], []⟩ "t1" fun _ => false).1.volumes ∧
     (dockerGetOrCreateSession ⟨[], []⟩ "t1" fun _ => false).1.volumes
        = (ensureVolume ⟨[], []⟩ (getVolumeName "t1")).volumes) ∧
    ((getOrCreateSandboxSession [] ⟨fun _ => false, .error "ProvisionError"⟩ "t1"
        ⟨"u1", "u1", "c1", "chan"⟩ 0).registry = [] ∧
     CtrlCall.registryInsert ∉ (getOrCreateSandboxSession []
        ⟨fun _ => false, .error "ProvisionError"⟩ "t1"
        ⟨"u1", "u1", "c1", "chan"⟩ 0).calls) :=
  ⟨claim_C3.1 ⟨[], []⟩ "t1" (fun _ => false) (getPortForThread "t1")
      (by decide) (fun i _ => rfl) (by decide),
   claim_C3.2 [] ⟨fun _ => false, .error "ProvisionError"⟩ "t1"
      ⟨"u1", "u1", "c1", "chan"⟩ 0 "ProvisionError" rfl⟩

/-! ### Idle reaper (`ThreadSandboxManager` in `src/sandbox/index.ts`, driven by
the `setInterval` sweep in `src/index.ts`) -/

/-- Source `ThreadSession` record of the in-memory session map. -/
structure TSession where
  threadId : String
  sessionArn : String
  volumeId : String
  opencodeUrl : String
  createdAt : Nat
  lastActivity : Nat
  deriving DecidableEq, Repr

/-- Observable manager state: the session map (associated by `threadId`), the
backend sessions stopped so far, and the volumes in existence. -/
structure MgrState where
  sessions : List TSession
  stoppedArns : List String
  volumes : List String
  deriving DecidableEq, Repr

/-- Source `destroySandbox(threadId)`: look up the session (return silently
when absent), stop the backend session, and delete the map entry; the volume
is deliberately not deleted. -/
def destroySandbox (st : MgrState) (threadId : String) : MgrState :=
  match st.sessions.find? (fun s => s.threadId == threadId) with
  | none => st
  | some s =>
    { sessions := st.sessions.filter fun r => !(r.threadId == threadId),
      stoppedArns := st.stoppedArns ++ [s.sessionArn],
      volumes := st.volumes }

/-- Idle test of the sweep: `idleTime > maxIdleMs`. -/
def reaperStale (now maxIdleMs : Nat) (s : TSession) : Bool :=
  decide (maxIdleMs < now - s.lastActivity)

/-- Body of the sweep's loop over one session map entry. -/
def cleanupStep (now maxIdleMs : Nat) (acc : MgrState) (s : TSession) : MgrState :=
  if reaperStale now maxIdleMs s then destroySandbox acc s.threadId else acc

/-- Source `cleanupInactiveSessions(maxIdleMinutes = 30)`: destroy every
session idle for longer than the threshold. -/
def cleanupInactiveSessions (st : MgrState) (now : Nat) (maxIdleMinutes : Nat) :
    MgrState :=
  st.sessions.foldl (cleanupStep now (maxIdleMinutes * 60000)) st

/-- Key invariant of the session map: thread ids are pairwise distinct. -/
def SessionKeysNodup (l : List TSession) : Prop :=
  l.Pairwise fun a b => a.threadId ≠ b.threadId

theorem destroySandbox_volumes (st : MgrState) (t : String) :
    (destroySandbox st t).volumes = st.volumes := by
  unfold destroySandbox
  cases st.sessions.find? (fun s => s.threadId == t) with
  | none => rfl
  | some s => rfl

theorem cleanupStep_volumes (now maxIdleMs : Nat) (acc : MgrState) (s : TSession) :
    (cleanupStep now maxIdleMs acc s).volumes = acc.volumes := by
  unfold cleanupStep
  by_cases h : reaperStale now maxIdleMs s = true
  · rw [if_pos h, destroySandbox_volumes]
  · rw [if_neg h]

theorem foldl_cleanupStep_volumes (now maxIdleMs : Nat) :
    ∀ (l : List TSession) (acc : MgrState),
      (l.foldl (cleanupStep now maxIdleMs) acc).volumes = acc.volumes := by
  intro l
  induction l with
  | nil => intro acc; rfl
  | cons x l ih =>
    intro acc
    rw [List.foldl_cons, ih, cleanupStep_volumes]

theorem destroySandbox_stoppedArns_mono (st : MgrState) (t : String) {x : String}
    (h : x ∈ st.stoppedArns) : x ∈ (destroySandbox st t).stoppedArns := by
  unfold destroySandbox
  cases st.sessions.find? (fun s => s.threadId == t) with
  | none => exact h
  | some s => simpa using Or.inl h

theorem foldl_cleanupStep_stoppedArns_mono (now maxIdleMs : Nat) :
    ∀ (l : List TSession) (acc : MgrState) (x : String), x ∈ acc.stoppedArns →
      x ∈ (l.foldl (cleanupStep now maxIdleMs) acc).stoppedArns := by
  intro l
  induction l with
  | nil => intro acc x h; exact h
  | cons y l ih =>
    intro acc x h
    rw [List.foldl_cons]
    apply ih
    unfold cleanupStep
    by_cases hy : reaperStale now maxIdleMs y = true
    · rw [if_pos hy]
      exact destroySandbox_stoppedArns_mono acc y.threadId h
    · rwa [if_neg hy]

theorem destroySandbox_sessions_subset (st : MgrState) (t : String) {r : TSession}
    (h : r ∈ (destroySandbox st t).sessions) : r ∈ st.sessions := by
  unfold destroySandbox at h
  split at h
  · exact h
  · exact (List.mem_filter.mp h).1

theorem foldl_cleanupStep_sessions_subset (now maxIdleMs : Nat) :
    ∀ (l : List TSession) (acc : MgrState) (r : TSession),
      r ∈ (l.foldl (cleanupStep now maxIdleMs) acc).sessions → r ∈ acc.sessions := by
  intro l
  induction l with
  | nil => intro acc r h; exact h
  | cons y l ih =>
    intro acc r h
    rw [List.foldl_cons] at h
    have := ih _ r h
    unfold cleanupStep at this
    by_cases hy : reaperStale now maxIdleMs y = true
    · rw [if_pos hy] at this
      exact destroySandbox_sessions_subset acc y.threadId this
    · rwa [if_neg hy] at this

theorem destroySandbox_keysNodup {st : MgrState} (t : String)
    (h : SessionKeysNodup st.sessions) :
    SessionKeysNodup (destroySandbox st t).sessions := by
  unfold destroySandbox
  cases st.sessions.find? (fun s => s.threadId == t) with
  | none => exact h
  | some s => exact List.Pairwise.sublist (List.filter_sublist _) h

theorem find?_of_keysNodup {l : List TSession} {s : TSession}
    (h : SessionKeysNodup l) (hs : s ∈ l) :
    l.find? (fun r => r.threadId == s.threadId) = some s := by
  induction l with
  | nil => cases hs
  | cons a l ih =>
    simp only [SessionKeysNodup, List.pairwise_cons] at h
    rcases List.mem_cons.mp hs with rfl | hmem
    · rw [List.find?_cons_of_pos]
      simp
    · rw [List.find?_cons_of_neg, ih h.2 hmem]
      have := h.1 s hmem
      simp [this]

/-- One pass over the remaining entries keeps a session none of them can
destroy. -/
theorem cleanup_go_keep (now maxIdleMs : Nat) :
    ∀ (l : List TSession) (acc : MgrState) (s : TSession), s ∈ acc.sessions →
      (∀ x ∈ l, x.threadId ≠ s.threadId) →
        s ∈ (l.foldl (cleanupStep now maxIdleMs) acc).sessions := by
  intro l
  induction l with
  | nil => intro acc s h _; exact h
  | cons y l ih =>
    intro acc s h hkeys
    rw [List.foldl_cons]
    apply ih
    · unfold cleanupStep
      by_cases hy : reaperStale now maxIdleMs y = true
      · rw [if_pos hy]
        unfold destroySandbox
        cases acc.sessions.find? (fun r => r.threadId == y.threadId) with
        | none => exact h
        | some w =>
          apply List.mem_filter.mpr
          refine ⟨h, ?_⟩
          have := hkeys y (by simp)
          simp only [Bool.not_eq_eq_eq_not, Bool.not_true, beq_eq_false_iff_ne, ne_eq]
          intro hc
          exact this hc.symm
      · rwa [if_neg hy]
    · intro x hx
      exact hkeys x (by simp [hx])

/-- A stale session still present in the accumulator is stopped and its map
entry removed by the remaining pass. -/
theorem cleanup_go_stale (now maxIdleMs : Nat) :
    ∀ (l : List TSession) (acc : MgrState) (s : TSession),
      SessionKeysNodup acc.sessions →
      l.Pairwise (fun a b => a.threadId ≠ b.threadId) →
      (∀ x ∈ l, x ∈ acc.sessions) →
      s ∈ l → reaperStale now maxIdleMs s = true →
        s.sessionArn ∈ (l.foldl (cleanupStep now maxIdleMs) acc).stoppedArns ∧
        ∀ r ∈ (l.foldl (cleanupStep now maxIdleMs) acc).sessions,
          r.threadId ≠ s.threadId := by
  intro l
  induction l with
  | nil => intro acc s _ _ _ hs; cases hs
  | cons y l ih =>
    intro acc s hnodup hpw hmem hs hstale
    rw [List.pairwise_cons] at hpw
    rcases List.mem_cons.mp hs with rfl | htail
    · rw [List.foldl_cons]
      have hsacc : s ∈ acc.sessions := hmem s (by simp)
      have hstep : cleanupStep now maxIdleMs acc s
          = { sessions := acc.sessions.filter fun r => !(r.threadId == s.threadId),
              stoppedArns := acc.stoppedArns ++ [s.sessionArn],
              volumes := acc.volumes } := by
        unfold cleanupStep
        rw [if_pos hstale]
        unfold destroySandbox
        rw [find?_of_keysNodup hnodup hsacc]
      rw [hstep]
      constructor
      · apply foldl_cleanupStep_stoppedArns_mono
        simp
      · intro r hr
        have := foldl_cleanupStep_sessions_subset now maxIdleMs l _ r hr
        simp only [List.mem_filter, Bool.not_eq_eq_eq_not, Bool.not_true,
          beq_eq_false_iff_ne, ne_eq] at this
        exact this.2
    · rw [List.foldl_cons]
      apply ih
      · unfold cleanupStep
        by_cases hy : reaperStale now maxIdleMs y = true
        · rw [if_pos hy]
          exact destroySandbox_keysNodup y.threadId hnodup
        · rwa [if_neg hy]
      · exact hpw.2
      · intro x hx
        unfold cleanupStep
        by_cases hy : reaperStale now maxIdleMs y = true
        · rw [if_pos hy]
          unfold destroySandbox
          cases acc.sessions.find? (fun r => r.threadId == y.threadId) with
          | none => exact hmem x (by simp [hx])
          | some w =>
            apply List.mem_filter.mpr
            refine ⟨hmem x (by simp [hx]), ?_⟩
            have := hpw.1 x hx
            simp only [Bool.not_eq_eq_eq_not, Bool.not_true, beq_eq_false_iff_ne, ne_eq]
            intro hc
            exact this hc.symm
        · rw [if_neg hy]
          exact hmem x (by simp [hx])
      · exact htail
      · exact hstale

/-- A session within the idle threshold keeps its map entry through the pass. -/
theorem cleanup_go_fresh (now maxIdleMs : Nat) :
    ∀ (l : List TSession) (acc : MgrState) (s : TSession),
      l.Pairwise (fun a b => a.threadId ≠ b.threadId) →
      s ∈ acc.sessions → s ∈ l → reaperStale now maxIdleMs s = false →
        s ∈ (l.foldl (cleanupStep now maxIdleMs) acc).sessions := by
  intro l
  induction l with
  | nil => intro acc s _ _ hs _; cases hs
  | cons y l ih =>
    intro acc s hpw hacc hs hfresh
    rw [List.pairwise_cons] at hpw
    rcases List.mem_cons.mp hs with rfl | htail
    · rw [List.foldl_cons]
      have hstep : cleanupStep now maxIdleMs acc s = acc := by
        unfold cleanupStep
        rw [if_neg (by simp [hfresh])]
      rw [hstep]
      apply cleanup_go_keep now maxIdleMs l acc s hacc
      intro x hx hc
      exact (hpw.1 x hx) hc.symm
    · rw [List.foldl_cons]
      apply ih _ s hpw.2 ?_ htail hfresh
      unfold cleanupStep
      by_cases hy : reaperStale now maxIdleMs y = true
      · rw [if_pos hy]
        unfold destroySandbox
        cases acc.sessions.find? (fun r => r.threadId == y.threadId) with
        | none => exact hacc
        | some w =>
          apply List.mem_filter.mpr
          refine ⟨hacc, ?_⟩
          simp only [Bool.not_eq_eq_eq_not, Bool.not_true, beq_eq_false_iff_ne, ne_eq]
          intro hc
          exact (hpw.1 s htail) hc.symm
      · rwa [if_neg hy]

/-- Counterexample to claim C4: a concrete sweep over one stale session stops
its backend session and preserves the volume, but deletes the session's
registry record from the map (no record remains, and no `status = stopped`
is ever written — the in-memory record has no status field at all). -/
theorem claim_C4_counterexample :
    (cleanupInactiveSessions
        ⟨[⟨"t1", "arn-1", "vol-1", "url-1", 0, 0⟩], [], ["vol-1"]⟩ 1860001 30).sessions
      = [] ∧
    (cleanupInactiveSessions
        ⟨[⟨"t1", "arn-1", "vol-1", "url-1", 0, 0⟩], [], ["vol-1"]⟩ 1860001 30).stoppedArns
      = ["arn-1"] ∧
    (cleanupInactiveSessions
        ⟨[⟨"t1", "arn-1", "vol-1", "url-1", 0, 0⟩], [], ["vol-1"]⟩ 1860001 30).volumes
      = ["vol-1"] := by
  refine ⟨?_, ?_, ?_⟩ <;> rfl

/-- Claim C4 as amended: the sweep preserves every volume; every session
whose `lastActivity` is older than the idle threshold has its backend session
stopped and its record removed from the session map (not marked stopped); and
every session within the threshold keeps its record. -/
theorem claim_C4_amended :
    (∀ (st : MgrState) (now maxIdleMinutes : Nat),
        (cleanupInactiveSessions st now maxIdleMinutes).volumes = st.volumes) ∧
    (∀ (st : MgrState) (now maxIdleMinutes : Nat) (s : TSession),
        SessionKeysNodup st.sessions → s ∈ st.sessions →
        reaperStale now (maxIdleMinutes * 60000) s = true →
          s.sessionArn ∈ (cleanupInactiveSessions st now maxIdleMinutes).stoppedArns ∧
          ∀ r ∈ (cleanupInactiveSessions st now maxIdleMinutes).sessions,
            r.threadId ≠ s.threadId) ∧
    (∀ (st : MgrState) (now maxIdleMinutes : Nat) (s : TSession),
        SessionKeysNodup st.sessions → s ∈ st.sessions →
        reaperStale now (maxIdleMinutes * 60000) s = false →
          s ∈ (cleanupInactiveSessions st now maxIdleMinutes).sessions) := by
  refine ⟨?_, ?_, ?_⟩
  · intro st now m
    exact foldl_cleanupStep_volumes now (m * 60000) st.sessions st
  · intro st now m s hnodup hmem hstale
    exact cleanup_go_stale now (m * 60000) st.sessions st s hnodup hnodup
      (fun x hx => hx) hmem hstale
  · intro st now m s hnodup hmem hfresh
    exact cleanup_go_fresh now (m * 60000) st.sessions st s hnodup hmem hmem hfresh

theorem claim_C4_witness :
    (cleanupInactiveSessions
        ⟨[⟨"t1", "arn-1", "vol-1", "url-1", 0, 0⟩,
          ⟨"t2", "arn-2", "vol-2", "url-2", 0, 1860000⟩], [], ["vol-1", "vol-2"]⟩
        1860001 30).volumes = ["vol-1", "vol-2"] ∧
    "arn-1" ∈ (cleanupInactiveSessions
        ⟨[⟨"t1", "arn-1", "vol-1", "url-1", 0, 0⟩,
          ⟨"t2", "arn-2", "vol-2", "url-2", 0, 1860000⟩], [], ["vol-1", "vol-2"]⟩
        1860001 30).stoppedArns ∧
    (⟨"t2", "arn-2", "vol-2", "url-2", 0, 1860000⟩ : TSession) ∈ (cleanupInactiveSessions
        ⟨[⟨"t1", "arn-1", "vol-1", "url-1", 0, 0⟩,
          ⟨"t2", "arn-2", "vol-2", "url-2", 0, 1860000⟩], [], ["vol-1", "vol-2"]⟩
        1860001 30).sessions :=
  ⟨claim_C4_amended.1
      ⟨[⟨"t1", "arn-1", "vol-1", "url-1", 0, 0⟩,
        ⟨"t2", "arn-2", "vol-2", "url-2", 0, 1860000⟩], [], ["vol-1", "vol-2"]⟩ 1860001 30,
   (claim_C4_amended.2.1
      ⟨[⟨"t1", "arn-1", "vol-1", "url-1", 0, 0⟩,
        ⟨"t2", "arn-2", "vol-2", "url-2", 0, 1860000⟩], [], ["vol-1", "vol-2"]⟩
      1860001 30 ⟨"t1", "arn-1", "vol-1", "url-1", 0, 0⟩
      (by unfold SessionKeysNodup; decide) (by decide) (by decide)).1,
   claim_C4_amended.2.2
      ⟨[⟨"t1", "arn-1", "vol-1", "url-1", 0, 0⟩,
        ⟨"t2", "arn-2", "vol-2", "url-2", 0, 1860000⟩], [], ["vol-1", "vol-2"]⟩
      1860001 30 ⟨"t2", "arn-2", "vol-2", "url-2", 0, 1860000⟩
      (by unfold SessionKeysNodup; decide) (by decide) (by decide)⟩

end Gurt
